import Mathlib

/-!
Shallow embedding of the oil-spill simulation core
(`src/simulation/mesh/{cell,triangle,line,mesh,cellfactory}.py` and
`src/simulation/simulation.py`).

Numbers: the Python code computes with IEEE floats; the embedding reads every
arithmetic expression at face value over `ℚ` (the literal `0.2` is `1/5`,
`np.dot`/`np.mean` are the exact dot product / componentwise mean).

Dictionaries are embedded as association lists in insertion order
(`alookup` is `dict.__getitem__` returning `none` for a missing key,
`dinsert` is `dict.__setitem__`: replace the first binding of the key in
place, else append).
-/

set_option autoImplicit false

namespace OilSpill

/-- A 2-D point / vector: the embedding of a coordinate pair. -/
abbrev Vec : Type := ℚ × ℚ

/-- An edge key: the canonical (sorted) pair of node ids, as produced by
`tuple(sorted((a, b)))` in `define_edges`. -/
abbrev Edge : Type := Nat × Nat

/-- `np.dot` on 2-vectors. -/
def dot (a b : Vec) : ℚ := a.1 * b.1 + a.2 * b.2

/-- Componentwise difference of 2-vectors. -/
def vsub (a b : Vec) : Vec := (a.1 - b.1, a.2 - b.2)

/-- Componentwise negation of a 2-vector. -/
def vneg (a : Vec) : Vec := (-a.1, -a.2)

/-- Squared Euclidean norm of a 2-vector. -/
def normSq (a : Vec) : ℚ := a.1 * a.1 + a.2 * a.2

/-- `np.mean([u, v], axis=0)`: the componentwise average of two 2-vectors. -/
def avg2 (a b : Vec) : Vec := ((a.1 + b.1) / 2, (a.2 + b.2) / 2)

/-- Python `dict` lookup on an insertion-ordered association list:
the value of the first binding of the key, if any. -/
def alookup {β : Type} : List (Edge × β) → Edge → Option β
  | [], _ => none
  | (k, v) :: rest, e => if k = e then some v else alookup rest e

/-- Python `dict` item assignment: replace the value of the first (unique)
binding of the key in place, else append a new binding. -/
def dinsert {β : Type} : List (Edge × β) → Edge → β → List (Edge × β)
  | [], e, v => [(e, v)]
  | (k, w) :: rest, e, v =>
      if k = e then (k, v) :: rest else (k, w) :: dinsert rest e v

/-- Lookup on an association list keyed by node ids (for `coords`). -/
def nlookup {β : Type} : List (Nat × β) → Nat → Option β
  | [], _ => none
  | (k, v) :: rest, n => if k = n then some v else nlookup rest n

/-- `dict` assignment keyed by node ids (for `coords`). -/
def ninsert {β : Type} : List (Nat × β) → Nat → β → List (Nat × β)
  | [], n, v => [(n, v)]
  | (k, w) :: rest, n, v =>
      if k = n then (k, v) :: rest else (k, w) :: ninsert rest n v

/-- `tuple(sorted((a, b)))`: the canonical edge key. -/
def sortPair (a b : Nat) : Edge := if a ≤ b then (a, b) else (b, a)

/-- The state of a `Triangle` cell (`triangle.py`): identity and topology from
`Cell.__init__`, geometry from `compute_center_point` / `compute_area` /
`compute_normal`, plus the solver-mutated `mean_flow` and `concentration`. -/
structure TriangleData where
  id : Nat
  nodes : List Nat
  edges : List Edge
  coords : List (Nat × Vec)
  center_point : Vec
  area : ℚ
  normals : List (Edge × Vec)
  mean_flow : List (Edge × Vec)
  concentration : ℚ
  neighbour_ids : List (Edge × Nat)
  deriving DecidableEq

/-- The state of a `Line` cell (`line.py`): a boundary marker carrying no
solver data. -/
structure LineData where
  id : Nat
  nodes : List Nat
  edges : List Edge
  coords : List (Nat × Vec)
  neighbour_ids : List (Edge × Nat)
  deriving DecidableEq

/-- A mesh cell: the `Cell` base class with its two variants. -/
inductive Cell : Type where
  | triangle (t : TriangleData)
  | line (l : LineData)
  deriving DecidableEq

/-- `cell.id`. -/
def Cell.cid : Cell → Nat
  | .triangle t => t.id
  | .line l => l.id

/-- `cell.edges`. -/
def Cell.cedges : Cell → List Edge
  | .triangle t => t.edges
  | .line l => l.edges

/-- `cell.neighbour_ids`. -/
def Cell.cnids : Cell → List (Edge × Nat)
  | .triangle t => t.neighbour_ids
  | .line l => l.neighbour_ids

/-- `cell.type == "line"` (equivalently `isinstance(cell, Line)`). -/
def Cell.isLine : Cell → Bool
  | .triangle _ => false
  | .line _ => true

/-- Replace a cell's `neighbour_ids` mapping (the only field
`Mesh.assign_neighbours` writes). -/
def Cell.setNids : Cell → List (Edge × Nat) → Cell
  | .triangle t, d => .triangle { t with neighbour_ids := d }
  | .line l, d => .line { l with neighbour_ids := d }

/-! ## Triangle geometry (`triangle.py`) -/

/-- `Triangle.define_edges` for nodes `[n1, n2, n3]`: the three canonical
node pairs, in source order. -/
def define_edges_tri (n1 n2 n3 : Nat) : List Edge :=
  [sortPair n1 n2, sortPair n2 n3, sortPair n3 n1]

/-- `Line.define_edges` for nodes `[a, b]`. -/
def define_edges_line (a b : Nat) : List Edge := [sortPair a b]

/-- `Triangle.compute_center_point`: `np.mean` of the x resp. y coordinates of
`coords.values()`. -/
def compute_center_point (vals : List Vec) : Vec :=
  ((vals.map Prod.fst).sum / vals.length, (vals.map Prod.snd).sum / vals.length)

/-- `Triangle.compute_area`: the absolute shoelace formula over the three
values of the `coords` dict. -/
def compute_area (p1 p2 p3 : Vec) : ℚ :=
  |p1.1 * (p2.2 - p3.2) + p2.1 * (p3.2 - p1.2) + p3.1 * (p1.2 - p2.2)| / 2

/-- The edge vector `p2 - p1` of `Triangle.compute_normal` (the endpoint
coordinates looked up in the cell's `coords` dict; a node missing from the
dict — impossible for a cell built by the factory — reads as the origin). -/
def edge_vector (coords : List (Nat × Vec)) (e : Edge) : Vec :=
  vsub ((nlookup coords e.2).getD (0, 0)) ((nlookup coords e.1).getD (0, 0))

/-- The edge midpoint `(p1 + p2) / 2` of `Triangle.compute_normal`. -/
def edge_midpoint (coords : List (Nat × Vec)) (e : Edge) : Vec :=
  let p1 := (nlookup coords e.1).getD (0, 0)
  let p2 := (nlookup coords e.2).getD (0, 0)
  ((p1.1 + p2.1) / 2, (p1.2 + p2.2) / 2)

/-- `Triangle.compute_normal` for one edge: rotate the edge vector 90°
(`(x, y) ↦ (-y, x)`), flip it if it points toward the centroid, and scale to
the edge length; a zero-length edge raises `ValueError` (`none` here).

The source normalizes the rotated vector to unit length and then multiplies by
the edge length; since the rotated vector's norm *is* the edge length, in
exact arithmetic that round trip is the identity and the result is `±` the
rotated vector. The sign test `np.dot(normal_vector, to_center) > 0` on the
unit vector has the same sign as the dot product with the unnormalized one. -/
def compute_normal1 (coords : List (Nat × Vec)) (center : Vec) (e : Edge) : Option Vec :=
  let ev := edge_vector coords e
  let nv : Vec := (-ev.2, ev.1)
  if nv = (0, 0) then none
  else
    let to_center := vsub center (edge_midpoint coords e)
    if 0 < dot nv to_center then some (vneg nv) else some nv

/-- `Triangle.compute_normal`: the scaled outward normal for every edge of the
cell, keyed by edge, failing (`ValueError`) on a zero-length edge. -/
def compute_normals (coords : List (Nat × Vec)) (center : Vec) :
    List Edge → Option (List (Edge × Vec))
  | [] => some []
  | e :: rest =>
      match compute_normal1 coords center e, compute_normals coords center rest with
      | some n, some ns => some ((e, n) :: ns)
      | _, _ => none

/-- The `coords` dict built by `Mesh.create_cells`:
`{int(p): self._points[p] for p in cell}` in node order (a duplicated node
overwrites its own entry, keeping one binding). -/
def coords_of (pts : Nat → Vec) (nodes : List Nat) : List (Nat × Vec) :=
  nodes.foldl (fun d p => ninsert d p (pts p)) []

/-- `Triangle.__init__`: derive edges (asserting exactly three nodes), then
centroid, outward normals and area; `mean_flow` starts empty and
`concentration` at `0.0`; `neighbour_ids` starts empty.  `none` embeds the
`AssertionError` on a wrong node count, the `ValueError` on a zero-length
edge, and the unpacking failure of `p1, p2, p3 = coords.values()` when a
duplicated node leaves fewer than three coordinate values. -/
def mk_triangle (cell_id : Nat) (nodes : List Nat) (coords : List (Nat × Vec)) :
    Option TriangleData :=
  match nodes with
  | [n1, n2, n3] =>
      let edges := define_edges_tri n1 n2 n3
      let center := compute_center_point (coords.map Prod.snd)
      match compute_normals coords center edges, coords.map Prod.snd with
      | some nm, [q1, q2, q3] =>
          some { id := cell_id, nodes := nodes, edges := edges, coords := coords,
                 center_point := center, area := compute_area q1 q2 q3,
                 normals := nm, mean_flow := [], concentration := 0,
                 neighbour_ids := [] }
      | _, _ => none
  | _ => none

/-- `Line.__init__`: derive the single edge, asserting exactly two nodes. -/
def mk_line (cell_id : Nat) (nodes : List Nat) (coords : List (Nat × Vec)) :
    Option LineData :=
  match nodes with
  | [a, b] =>
      some { id := cell_id, nodes := nodes, edges := define_edges_line a b,
             coords := coords, neighbour_ids := [] }
  | _ => none

/-! ## Cell factory and mesh construction (`cellfactory.py`, `mesh.py`) -/

/-- The type tag of a meshio cell block; the factory's default registry knows
`"line"` and `"triangle"`, and `Mesh.create_cells` skips `"vertex"` blocks. -/
inductive CellKind : Type where
  | vertex
  | line
  | triangle
  deriving DecidableEq

/-- `CellFactory.__call__` on one record `{type, id, nodes, coords}`:
dispatch on the type tag to the registered constructor. -/
def factory_call (pts : Nat → Vec) (kind : CellKind) (cell_id : Nat)
    (row : List Nat) : Option Cell :=
  match kind with
  | .line => (mk_line cell_id row (coords_of pts row)).map Cell.line
  | .triangle => (mk_triangle cell_id row (coords_of pts row)).map Cell.triangle
  | .vertex => none

/-- The inner loop of `Mesh.create_cells` over one cell block's rows:
each new cell gets `id = len(self._cells)` and is appended. -/
def create_rows (pts : Nat → Vec) (kind : CellKind) :
    List (List Nat) → List Cell → Option (List Cell)
  | [], acc => some acc
  | row :: rest, acc =>
      match factory_call pts kind acc.length row with
      | some c => create_rows pts kind rest (acc ++ [c])
      | none => none

/-- The outer loop of `Mesh.create_cells` over the meshio cell blocks,
skipping `"vertex"` blocks. -/
def create_cells_from (pts : Nat → Vec) :
    List (CellKind × List (List Nat)) → List Cell → Option (List Cell)
  | [], acc => some acc
  | (kind, rows) :: rest, acc =>
      if kind = CellKind.vertex then create_cells_from pts rest acc
      else
        match create_rows pts kind rows acc with
        | some acc2 => create_cells_from pts rest acc2
        | none => none

/-- `Mesh.create_cells`, starting from the empty cell list. -/
def create_cells (pts : Nat → Vec) (blocks : List (CellKind × List (List Nat))) :
    Option (List Cell) :=
  create_cells_from pts blocks []

/-- The `mesh_edges` adjacency index: a dict from canonical edge to the list
of ids of the cells bordering it. -/
abbrev MeshEdges : Type := List (Edge × List Nat)

/-- `self._mesh_edges[edge].append(cell._id)` on the `defaultdict(list)`:
append to the existing list, or create a fresh singleton entry. -/
def edges_append (m : MeshEdges) (e : Edge) (i : Nat) : MeshEdges :=
  match m with
  | [] => [(e, [i])]
  | (k, l) :: rest =>
      if k = e then (k, l ++ [i]) :: rest else (k, l) :: edges_append rest e i

/-- The `defaultdict(list)` read view of `mesh_edges`: a missing edge reads
as the empty list. -/
def meLookup (m : MeshEdges) (e : Edge) : List Nat := (alookup m e).getD []

/-- `Mesh.build_topology`: for every cell, for every edge, append the cell's
id to the edge's adjacency list (accumulating into whatever `mesh_edges`
already holds — the dict is never cleared). -/
def build_topology (m : MeshEdges) (cells : List Cell) : MeshEdges :=
  cells.foldl (fun m' c => c.cedges.foldl (fun m'' e => edges_append m'' e c.cid) m') m

/-- The inner loop of `Mesh.assign_neighbours` for one edge of one cell:
walk the edge's adjacency list and (re)assign every id other than the cell's
own as the neighbour across that edge — the last such id wins. -/
def assign_edge (me : MeshEdges) (own : Nat) (d : List (Edge × Nat)) (e : Edge) :
    List (Edge × Nat) :=
  (meLookup me e).foldl (fun d' n => if n ≠ own then dinsert d' e n else d') d

/-- `Mesh.assign_neighbours` for one cell: fold `assign_edge` over the cell's
edges, updating its `neighbour_ids` dict in place. -/
def assign_cell (me : MeshEdges) (c : Cell) : Cell :=
  c.setNids (c.cedges.foldl (assign_edge me c.cid) c.cnids)

/-- `Mesh.assign_neighbours`: the per-cell loop (the loop mutates each cell
independently, reading only the shared `mesh_edges`, so it is a map). -/
def assign_neighbours (me : MeshEdges) (cells : List Cell) : List Cell :=
  cells.map (assign_cell me)

/-! ## The simulation (`simulation.py`) -/

/-- `Simulation.compute_flow_field`: the analytic velocity field
`v(x, y) = (y - 0.2 x, -x)` (the literal `0.2` read exactly as `1/5`). -/
def compute_flow_field (point : Vec) : Vec :=
  (point.2 - (1 / 5) * point.1, -point.1)

/-- `Simulation.oil_velocity`: the upwind edge flux.  `v` is
`np.dot(mean_flow, outer_normal)`; the flux uses the cell's own concentration
when `v > 0` and the neighbour's otherwise. -/
def oil_velocity (outer_normal mean_flow : Vec)
    (concentration concentration_neighbour : ℚ) : ℚ :=
  let velocity_oil_direction := dot mean_flow outer_normal
  if 0 < velocity_oil_direction then concentration * velocity_oil_direction
  else concentration_neighbour * velocity_oil_direction

/-- `self._mesh.cells[i]`.  Python raises `IndexError` out of range; the dummy
line is never read under the theorems' well-formedness hypotheses. -/
def getCellD (cells : List Cell) (i : Nat) : Cell :=
  cells.getD i (Cell.line { id := 0, nodes := [], edges := [], coords := [],
                            neighbour_ids := [] })

/-- The mean flow `Simulation.initial_conditions` stores for one edge of a
triangle: the velocity at the cell's own centroid, averaged with the velocity
at the neighbour's centroid only when the recorded neighbour id passes the
source's truthiness guard `if neighbour_id:` (false both for a missing entry,
where the `defaultdict` yields the empty list, and for the integer id `0`)
and the neighbour is not a line. -/
def mean_flow_for (cells : List Cell) (t : TriangleData) (e : Edge) : Vec :=
  let base := compute_flow_field t.center_point
  match alookup t.neighbour_ids e with
  | none => base
  | some nid =>
      if nid = 0 then base
      else
        match getCellD cells nid with
        | .line _ => base
        | .triangle nt => avg2 base (compute_flow_field nt.center_point)

/-- `Simulation.initial_conditions`: skip lines; set each triangle's
concentration from the initial profile at its centroid and fill its
`mean_flow` dict edge by edge.  The loop mutates each cell in place but only
ever *reads* centroids, which it never writes, so it is a map over the
original cell list.

The source profile `exp(-‖x - source‖² / 0.01)` is transcendental and not
representable over `ℚ`; the claims under verification are independent of the
profile's values, so it is passed in as the parameter `ic`. -/
def initial_conditions (ic : Vec → ℚ) (cells : List Cell) : List Cell :=
  cells.map fun c =>
    match c with
    | .line l => .line l
    | .triangle t =>
        .triangle { t with
          concentration := ic t.center_point,
          mean_flow :=
            t.edges.foldl (fun mf e => dinsert mf e (mean_flow_for cells t e))
              t.mean_flow }

/-- One edge's contribution inside the solver loop: look up the neighbour
(`cells[neighbour_id]`), skip it if it is a line, else compute the upwind
flux from the edge's stored normal and mean flow and the two concentrations.
`none` for a missing `neighbour_ids` entry embeds the `TypeError` Python
would raise indexing the cell list by the `defaultdict`'s empty list —
unreachable on a mesh whose topology was assigned. -/
def cell_flux (cells : List Cell) (t : TriangleData) (e : Edge) : Option ℚ :=
  match alookup t.neighbour_ids e with
  | none => none
  | some nid =>
      match getCellD cells nid with
      | .line _ => none
      | .triangle nt =>
          some (oil_velocity ((alookup t.normals e).getD (0, 0))
            ((alookup t.mean_flow e).getD (0, 0))
            t.concentration nt.concentration)

/-- The per-cell body of the solver's step loop: skip lines; for a triangle,
collect the edge fluxes, form
`total_flux = -(sum(edges_net_flux) * delta_t) / cell.area`, and stage
`(cell.id, concentration + total_flux)` into `concentration_tmp`. -/
def stage_cell (cells : List Cell) (delta_t : ℚ) : Cell → Option (Nat × ℚ)
  | .line _ => none
  | .triangle t =>
      let edges_net_flux := t.edges.filterMap (cell_flux cells t)
      let total_flux := -(edges_net_flux.sum * delta_t) / t.area
      some (t.id, t.concentration + total_flux)

/-- The staging store `concentration_tmp` for one step: all triangles' new
concentrations keyed by cell id, computed from the pre-step cell list. -/
def stage_step (cells : List Cell) (delta_t : ℚ) : List (Nat × ℚ) :=
  cells.filterMap (stage_cell cells delta_t)

/-- `self._mesh.cells[cell_id].concentration = ...` for one staged entry.
The fallthrough (out-of-range id, or a line — Python would attach a stray
attribute to it) is unreachable: staged ids are ids of triangles. -/
def set_concentration (cells : List Cell) (i : Nat) (v : ℚ) : List Cell :=
  match cells.get? i with
  | some (.triangle t) => cells.set i (.triangle { t with concentration := v })
  | _ => cells

/-- The commit loop: write every staged concentration back into the cells,
after the whole step's staging store is complete. -/
def commit_stage (cells : List Cell) (tmp : List (Nat × ℚ)) : List Cell :=
  tmp.foldl (fun cs p => set_concentration cs p.1 p.2) cells

/-- The fishing-grounds rectangle `self._borders`:
`((xmin, xmax), (ymin, ymax))`. -/
structure Borders where
  x : ℚ × ℚ
  y : ℚ × ℚ
  deriving DecidableEq

/-- The per-step aggregate: `sum(cell.concentration * cell.area)` over every
non-line cell whose centroid lies inside the borders, bounds inclusive. -/
def total_oil (b : Borders) (cells : List Cell) : ℚ :=
  (cells.filterMap fun c =>
    match c with
    | .line _ => none
    | .triangle t =>
        if b.x.1 ≤ t.center_point.1 ∧ t.center_point.1 ≤ b.x.2 ∧
           b.y.1 ≤ t.center_point.2 ∧ t.center_point.2 ≤ b.y.2
        then some (t.concentration * t.area) else none).sum

/-- The solver's mutable state: the mesh's cell list and the append-only
`_oil_in_fishing_grounds` series. -/
structure SimState where
  cells : List Cell
  oil_in_fishing_grounds : List ℚ
  deriving DecidableEq

/-- One iteration of the `while step < number_of_steps` loop: stage every
triangle's new concentration, commit the staging store, then append the
fishing-grounds aggregate of the committed state. -/
def solver_step (b : Borders) (delta_t : ℚ) (st : SimState) : SimState :=
  let tmp := stage_step st.cells delta_t
  let cells := commit_stage st.cells tmp
  { cells := cells,
    oil_in_fishing_grounds := st.oil_in_fishing_grounds ++ [total_oil b cells] }

/-- `Simulation.solver`: run the step loop `number_of_steps` times (plotting
and logging are I/O, outside the embedded core). -/
def solver (b : Borders) (number_of_steps : Nat) (delta_t : ℚ) (st : SimState) :
    SimState :=
  (solver_step b delta_t)^[number_of_steps] st

/-! ## Derived notions used by the statements -/

/-- The net flux a triangle accumulates in one step: the sum of the upwind
fluxes of its edges whose neighbour is a triangle (line-bordered edges
contribute nothing). -/
def edge_flux_formula (cells : List Cell) (t : TriangleData) : ℚ :=
  (t.edges.filterMap (cell_flux cells t)).sum

/-- The neighbour id recorded across edge `e` of an optional cell. -/
def nids_lookup (oc : Option Cell) (e : Edge) : Option Nat :=
  oc.bind fun c => alookup c.cnids e

/-- The mean flow recorded on edge `e` of an optional cell (lines carry
none). -/
def mean_flow_lookup (oc : Option Cell) (e : Edge) : Option Vec :=
  oc.bind fun c =>
    match c with
    | .triangle t => alookup t.mean_flow e
    | .line _ => none

/-- Two cells agree on everything except (for triangles) the concentration:
same id, nodes, edges, coords, neighbour ids, centroid, area, normals and
mean flow. -/
def same_frame : Cell → Cell → Prop
  | .line l, .line l' => l = l'
  | .triangle t, .triangle t' =>
      t.id = t'.id ∧ t.nodes = t'.nodes ∧ t.edges = t'.edges ∧
      t.coords = t'.coords ∧ t.neighbour_ids = t'.neighbour_ids ∧
      t.center_point = t'.center_point ∧ t.area = t'.area ∧
      t.normals = t'.normals ∧ t.mean_flow = t'.mean_flow
  | _, _ => False

/-- The last element of `l` that differs from `own`, written as the fold the
`assign_neighbours` inner loop performs. -/
def last_non_own (own : Nat) (l : List Nat) : Option Nat :=
  l.foldl (fun acc n => if n ≠ own then some n else acc) none

/-- First-defined choice on options (used to state dict-update lemmas). -/
def ofirst {α : Type} : Option α → Option α → Option α
  | some v, _ => some v
  | none, b => b

/-- The ids a cell sequence contributes to edge `e`'s adjacency list, in
traversal order: one occurrence of the cell's id per occurrence of `e` among
its edges. -/
def edge_incidences : List Cell → Edge → List Nat
  | [], _ => []
  | c :: rest, e =>
      (c.cedges.filter (fun e' => e' = e)).map (fun _ => c.cid) ++
        edge_incidences rest e

/-- One run of the topology pair on a mesh state: `build_topology` into the
current `mesh_edges` dict (which persists on the `Mesh` object between
calls), then `assign_neighbours` over the cells. -/
def run_topology (me : MeshEdges) (cells : List Cell) : MeshEdges × List Cell :=
  let me1 := build_topology me cells
  (me1, assign_neighbours me1 cells)

/-! ## Concrete meshes for the witnesses and counterexamples

The unit square split along its diagonal into the triangles `[0,1,2]` and
`[1,2,3]`, with nodes `0 ↦ (0,0)`, `1 ↦ (1,0)`, `2 ↦ (0,1)`, `3 ↦ (1,1)`.
The data below is exactly what `Mesh.create_cells`, `build_topology` and
`assign_neighbours` produce on it (the triangle block listed first, so cell
`0` is a triangle); `wBase` is the state before neighbour assignment and
`wCells` the state after. -/

/-- Node coordinates of the unit square split into two triangles. -/
def pts4 : Nat → Vec := fun n =>
  match n with
  | 0 => (0, 0) | 1 => (1, 0) | 2 => (0, 1) | 3 => (1, 1) | _ => (0, 0)

/-- The lower-left triangle, cell id `0`, before neighbour assignment. -/
def wTri0 : TriangleData :=
  { id := 0, nodes := [0, 1, 2], edges := [(0, 1), (1, 2), (0, 2)],
    coords := [(0, (0, 0)), (1, (1, 0)), (2, (0, 1))],
    center_point := (1 / 3, 1 / 3), area := 1 / 2,
    normals := [((0, 1), (0, -1)), ((1, 2), (1, 1)), ((0, 2), (-1, 0))],
    mean_flow := [], concentration := 0, neighbour_ids := [] }

/-- The upper-right triangle, cell id `1`, before neighbour assignment. -/
def wTri1 : TriangleData :=
  { id := 1, nodes := [1, 2, 3], edges := [(1, 2), (2, 3), (1, 3)],
    coords := [(1, (1, 0)), (2, (0, 1)), (3, (1, 1))],
    center_point := (2 / 3, 2 / 3), area := 1 / 2,
    normals := [((1, 2), (-1, -1)), ((2, 3), (0, 1)), ((1, 3), (1, 0))],
    mean_flow := [], concentration := 0, neighbour_ids := [] }

/-- The two-triangle mesh as created, before neighbour assignment. -/
def wBase : List Cell := [.triangle wTri0, .triangle wTri1]

/-- The two-triangle mesh with neighbours assigned: each triangle's neighbour
across the shared edge `(1, 2)` is the other one — in particular cell `1`'s
recorded neighbour id is `0`. -/
def wCells : List Cell :=
  [.triangle { wTri0 with neighbour_ids := [((1, 2), 1)] },
   .triangle { wTri1 with neighbour_ids := [((1, 2), 0)] }]

/-- The two-triangle mesh after `initial_conditions` (with the zero
concentration profile — the mean-flow fields do not depend on it). -/
def wInit : List Cell := initial_conditions (fun _ => 0) wCells

/-- A fishing-grounds rectangle covering the unit square. -/
def bEx : Borders := ⟨(0, 1), (0, 1)⟩

/-- A single boundary line cell: the smallest cell sequence on which running
the topology passes twice is observable. -/
def cex6Cells : List Cell :=
  [Cell.line { id := 0, nodes := [0, 1], edges := [(0, 1)],
               coords := [(0, (0, 0)), (1, (1, 0))], neighbour_ids := [] }]

/-- Three triangles all sharing edge `(0, 1)` — not a
2-manifold-with-boundary, the situation the spec's failure policy is about —
over nodes `0 ↦ (0,0)`, `1 ↦ (1,0)`, `2 ↦ (0,1)`, `3 ↦ (1,1)`, `4 ↦ (2,1)`,
each with its honest centroid, area and outward normals. -/
def cex7Cells : List Cell :=
  [.triangle { id := 0, nodes := [0, 1, 2], edges := [(0, 1), (1, 2), (0, 2)],
               coords := [(0, (0, 0)), (1, (1, 0)), (2, (0, 1))],
               center_point := (1 / 3, 1 / 3), area := 1 / 2,
               normals := [((0, 1), (0, -1)), ((1, 2), (1, 1)), ((0, 2), (-1, 0))],
               mean_flow := [], concentration := 0, neighbour_ids := [] },
   .triangle { id := 1, nodes := [0, 1, 3], edges := [(0, 1), (1, 3), (0, 3)],
               coords := [(0, (0, 0)), (1, (1, 0)), (3, (1, 1))],
               center_point := (2 / 3, 1 / 3), area := 1 / 2,
               normals := [((0, 1), (0, -1)), ((1, 3), (1, 0)), ((0, 3), (-1, 1))],
               mean_flow := [], concentration := 0, neighbour_ids := [] },
   .triangle { id := 2, nodes := [0, 1, 4], edges := [(0, 1), (1, 4), (0, 4)],
               coords := [(0, (0, 0)), (1, (1, 0)), (4, (2, 1))],
               center_point := (1, 1 / 3), area := 1 / 2,
               normals := [((0, 1), (0, -1)), ((1, 4), (1, -1)), ((0, 4), (-1, 2))],
               mean_flow := [], concentration := 0, neighbour_ids := [] }]

/-- Two boundary line blocks for the `create_cells` witness (line cells
involve no rational arithmetic while being built, so the construction is
kernel-computable). -/
def wLineBlocks : List (CellKind × List (List Nat)) :=
  [(CellKind.vertex, [[0]]), (CellKind.line, [[0, 1], [1, 2]])]

/-- The cells `create_cells` produces from `wLineBlocks`. -/
def wLineCells : List Cell := (create_cells pts4 wLineBlocks).getD []

/-! ## C1: the upwind edge flux -/

/-- C1: for every outward normal, mean-flow vector, own concentration `c` and
neighbour concentration `cn`, `oil_velocity` returns `c * v` when
`v = dot(mean_flow, outer_normal) > 0` and `cn * v` otherwise; in particular
with `outer_normal = (1,0)`, `mean_flow = (2,0)`, `c = 0.5`, `cn = 0.2` it
returns `1.0`, and with `outer_normal = (-1,0)` it returns `-0.4`. -/
theorem oil_velocity_upwind (outer_normal mean_flow : Vec) (c cn : ℚ) :
    (0 < dot mean_flow outer_normal →
      oil_velocity outer_normal mean_flow c cn = c * dot mean_flow outer_normal) ∧
    (¬ 0 < dot mean_flow outer_normal →
      oil_velocity outer_normal mean_flow c cn = cn * dot mean_flow outer_normal) ∧
    oil_velocity (1, 0) (2, 0) (1 / 2) (1 / 5) = 1 ∧
    oil_velocity (-1, 0) (2, 0) (1 / 2) (1 / 5) = -(2 / 5) := by
  refine ⟨fun h => ?_, fun h => ?_, by norm_num [oil_velocity, dot],
    by norm_num [oil_velocity, dot]⟩
  · simp only [oil_velocity, if_pos h]
  · simp only [oil_velocity, if_neg h]

/-- Witness for C1 at the spec's own inputs. -/
theorem oil_velocity_upwind_witness :
    oil_velocity (1, 0) (2, 0) (1 / 2) (1 / 5) = (1 / 2) * dot (2, 0) (1, 0) :=
  (oil_velocity_upwind (1, 0) (2, 0) (1 / 2) (1 / 5)).1 (by norm_num [dot])

/-! ## C5: scaled outward normals -/

/-- C5: whenever `compute_normal` succeeds on an edge (its endpoints are
distinct, so the edge has nonzero length), the produced normal's squared —
hence plain — Euclidean magnitude equals the edge's, and its dot product with
the vector from the edge midpoint to the triangle centroid is `≤ 0`: the
normal points away from the interior. -/
theorem compute_normal_outward (coords : List (Nat × Vec)) (center : Vec)
    (e : Edge) (n : Vec) (h : compute_normal1 coords center e = some n) :
    normSq n = normSq (edge_vector coords e) ∧
    dot n (vsub center (edge_midpoint coords e)) ≤ 0 ∧
    Real.sqrt ((normSq n : ℚ) : ℝ) =
      Real.sqrt ((normSq (edge_vector coords e) : ℚ) : ℝ) := by
  simp only [compute_normal1] at h
  split_ifs at h with h0 h1
  · obtain rfl : vneg (-(edge_vector coords e).2, (edge_vector coords e).1) = n :=
      Option.some.inj h
    refine ⟨by simp [normSq, vneg]; ring, ?_, ?_⟩
    · have : dot (vneg (-(edge_vector coords e).2, (edge_vector coords e).1))
          (vsub center (edge_midpoint coords e)) =
          -(dot (-(edge_vector coords e).2, (edge_vector coords e).1)
            (vsub center (edge_midpoint coords e))) := by
        simp [dot, vneg]; ring
      rw [this]
      exact neg_nonpos.mpr (le_of_lt h1)
    · congr 1
      push_cast [normSq, vneg]
      ring
  · obtain rfl : ((-(edge_vector coords e).2, (edge_vector coords e).1) : Vec) = n :=
      Option.some.inj h
    refine ⟨by simp [normSq]; ring, le_of_not_lt h1, ?_⟩
    congr 1
    push_cast [normSq]
    ring

/-- Witness for C5 on the edge `(0, 1)` of the unit right triangle. -/
theorem compute_normal_outward_witness :
    normSq (0, -1) = normSq (edge_vector [(0, ((0 : ℚ), (0 : ℚ))), (1, (1, 0)), (2, (0, 1))] (0, 1)) ∧
    dot (0, -1) (vsub (1 / 3, 1 / 3)
      (edge_midpoint [(0, ((0 : ℚ), (0 : ℚ))), (1, (1, 0)), (2, (0, 1))] (0, 1))) ≤ 0 ∧
    Real.sqrt ((normSq (0, -1) : ℚ) : ℝ) =
      Real.sqrt ((normSq (edge_vector [(0, ((0 : ℚ), (0 : ℚ))), (1, (1, 0)), (2, (0, 1))] (0, 1)) : ℚ) : ℝ) :=
  compute_normal_outward [(0, ((0 : ℚ), (0 : ℚ))), (1, (1, 0)), (2, (0, 1))]
    (1 / 3, 1 / 3) (0, 1) (0, -1)
    (by norm_num [compute_normal1, edge_vector, edge_midpoint, nlookup, vsub, vneg, dot])

/-! ## Dictionary lemmas -/

/-- Looking up after a dict assignment: the assigned key reads the new value,
every other key is untouched. -/
theorem alookup_dinsert {β : Type} (d : List (Edge × β)) (e q : Edge) (v : β) :
    alookup (dinsert d e v) q = if e = q then some v else alookup d q := by
  induction d with
  | nil => simp [dinsert, alookup]
  | cons p rest ih =>
      obtain ⟨k, w⟩ := p
      by_cases hke : k = e
      · subst hke
        simp only [dinsert, if_pos rfl, alookup]
        by_cases hkq : k = q <;> simp [hkq]
      · simp only [dinsert, if_neg hke, alookup, ih]
        by_cases hkq : k = q
        · subst hkq
          have hne : ¬e = k := fun h => hke h.symm
          simp [hne]
        · simp [hkq]

/-- Looking up after folding a per-key assignment over a key list: a key in
the list reads its assigned value, any other key reads the original dict. -/
theorem alookup_foldl_dinsert {β : Type} (f : Edge → β) (es : List Edge)
    (d : List (Edge × β)) (q : Edge) :
    alookup (es.foldl (fun mf e => dinsert mf e (f e)) d) q =
      if q ∈ es then some (f q) else alookup d q := by
  induction es generalizing d with
  | nil => simp
  | cons e rest ih =>
      simp only [List.foldl_cons, ih, alookup_dinsert, List.mem_cons]
      by_cases hq : q ∈ rest
      · simp [hq]
      · by_cases heq : e = q
        · subst heq
          simp [hq]
        · have hne : ¬q = e := fun h => heq h.symm
          simp [hq, heq, hne]

/-- What `initial_conditions` makes of the triangle stored at index `i`: the
concentration is reset from the profile and the mean-flow dict is filled by
folding over the cell's edges. -/
theorem initial_conditions_get (ic : Vec → ℚ) (cells : List Cell) (i : Nat)
    (t : TriangleData) (ht : cells.get? i = some (.triangle t)) :
    (initial_conditions ic cells).get? i =
      some (.triangle { t with
        concentration := ic t.center_point,
        mean_flow :=
          t.edges.foldl (fun mf e => dinsert mf e (mean_flow_for cells t e))
            t.mean_flow }) := by
  simp only [initial_conditions, List.get?_map, ht, Option.map_some']

/-! ## C4: mean-flow averaging across a triangle neighbour (code bug) -/

/-- C4 (the code at the failing input): on the two-triangle mesh `wCells` —
produced by the topology pipeline from the two-triangle cell list `wBase` —
cell `1`'s recorded neighbour across edge `(1, 2)` is cell `0`, a triangle,
yet `initial_conditions` stores as the edge's mean flow the velocity at cell
`1`'s own centroid, not the average with the neighbour's (a different
vector): the guard `if neighbour_id:` is falsy for the integer id `0`. -/
theorem initial_conditions_zero_id_at_failing_input :
    assign_neighbours (build_topology [] wBase) wBase = wCells ∧
    nids_lookup (wCells.get? 1) (1, 2) = some 0 ∧
    (wCells.get? 0).map Cell.isLine = some false ∧
    mean_flow_lookup (wInit.get? 1) (1, 2) =
      some (compute_flow_field (2 / 3, 2 / 3)) ∧
    compute_flow_field (2 / 3, 2 / 3) ≠
      avg2 (compute_flow_field (2 / 3, 2 / 3)) (compute_flow_field (1 / 3, 1 / 3)) := by
  refine ⟨rfl, rfl, rfl, rfl, ?_⟩
  norm_num [compute_flow_field, avg2, Prod.ext_iff]

/-! ## C10: a neighbour id of 0 is treated as missing -/

/-- C10: in `initial_conditions`, a recorded neighbour id `0` fails the
truthiness guard, so the mean flow stored for such an edge is the velocity at
the cell's own centroid alone — whatever kind of cell id `0` denotes. -/
theorem initial_conditions_zero_neighbour (ic : Vec → ℚ) (cells : List Cell)
    (i : Nat) (t : TriangleData) (ht : cells.get? i = some (.triangle t))
    (e : Edge) (he : e ∈ t.edges)
    (hz : alookup t.neighbour_ids e = some 0) :
    mean_flow_lookup ((initial_conditions ic cells).get? i) e =
      some (compute_flow_field t.center_point) := by
  rw [initial_conditions_get ic cells i t ht]
  show alookup
    (t.edges.foldl (fun mf e => dinsert mf e (mean_flow_for cells t e)) t.mean_flow)
    e = some (compute_flow_field t.center_point)
  rw [alookup_foldl_dinsert (mean_flow_for cells t)]
  simp [he, mean_flow_for, hz]

/-- Witness for C10 on the two-triangle mesh: cell `1`'s neighbour across
`(1, 2)` is recorded as id `0`. -/
theorem initial_conditions_zero_neighbour_witness :
    mean_flow_lookup ((initial_conditions (fun _ => 0) wCells).get? 1) (1, 2) =
      some (compute_flow_field
        ({ wTri1 with neighbour_ids := [((1, 2), 0)] }).center_point) :=
  initial_conditions_zero_neighbour (fun _ => 0) wCells 1
    { wTri1 with neighbour_ids := [((1, 2), 0)] } rfl (1, 2) (by decide) (by decide)

/-! ## Topology lemmas -/

/-- `ofirst` is associative. -/
theorem ofirst_assoc {α : Type} (a b c : Option α) :
    ofirst (ofirst a b) c = ofirst a (ofirst b c) := by
  cases a <;> rfl

/-- Re-preferring the same first choice changes nothing. -/
theorem ofirst_idem {α : Type} (a b : Option α) :
    ofirst a (ofirst a b) = ofirst a b := by
  cases a <;> rfl

/-- The last-non-own fold from an arbitrary accumulator. -/
theorem lno_foldl (own : Nat) (l : List Nat) (a : Option Nat) :
    l.foldl (fun acc n => if n ≠ own then some n else acc) a =
      ofirst (last_non_own own l) a := by
  induction l generalizing a with
  | nil => rfl
  | cons n rest ih =>
      have hlno : last_non_own own (n :: rest) =
          ofirst (last_non_own own rest) (if n ≠ own then some n else none) := by
        have h1 : last_non_own own (n :: rest) =
            rest.foldl (fun acc m => if m ≠ own then some m else acc)
              (if n ≠ own then some n else none) := by
          simp only [last_non_own, List.foldl_cons]
        rw [h1, ih]
      simp only [List.foldl_cons, ih, hlno]
      by_cases hn : n ≠ own
      · simp only [if_pos hn]
        cases last_non_own own rest <;> rfl
      · simp only [if_neg hn]
        cases last_non_own own rest <;> rfl

/-- Walking a doubled id list assigns the same last non-own id as walking it
once. -/
theorem last_non_own_append (own : Nat) (l : List Nat) :
    last_non_own own (l ++ l) = last_non_own own l := by
  have h : last_non_own own (l ++ l) =
      l.foldl (fun acc n => if n ≠ own then some n else acc) (last_non_own own l) := by
    simp only [last_non_own, List.foldl_append]
  rw [h, lno_foldl]
  cases last_non_own own l <;> rfl

/-- Reading the adjacency dict one entry in. -/
theorem meLookup_cons (k : Edge) (l : List Nat) (rest : MeshEdges) (q : Edge) :
    meLookup ((k, l) :: rest) q = if k = q then l else meLookup rest q := by
  by_cases h : k = q <;> simp [meLookup, alookup, h]

/-- Appending an id into the adjacency dict: only the touched edge's list
grows, by that one id at its end. -/
theorem meLookup_edges_append (m : MeshEdges) (e q : Edge) (i : Nat) :
    meLookup (edges_append m e i) q =
      if e = q then meLookup m q ++ [i] else meLookup m q := by
  induction m with
  | nil => by_cases h : e = q <;> simp [edges_append, meLookup, alookup, h]
  | cons p rest ih =>
      obtain ⟨k, l⟩ := p
      by_cases hke : k = e
      · subst hke
        simp only [edges_append, if_pos rfl]
        by_cases hkq : k = q <;> simp [hkq, meLookup_cons]
      · simp only [edges_append, if_neg hke, meLookup_cons]
        by_cases hkq : k = q
        · subst hkq
          have hne : ¬e = k := fun h => hke h.symm
          simp [hne]
        · simp [hkq, ih]

/-- One cell's contribution to the adjacency dict: its id appended once per
occurrence of the edge among its edges. -/
theorem meLookup_foldl_append (i : Nat) (es : List Edge) (m : MeshEdges) (q : Edge) :
    meLookup (es.foldl (fun m' e => edges_append m' e i) m) q =
      meLookup m q ++ (es.filter (fun e => e = q)).map (fun _ => i) := by
  induction es generalizing m with
  | nil => simp
  | cons e rest ih =>
      simp only [List.foldl_cons, ih, meLookup_edges_append, List.filter_cons]
      by_cases he : e = q
      · simp [he, List.append_assoc]
      · simp [he]

/-- `build_topology` extends each edge's adjacency list by exactly the
incidence list of the cell sequence. -/
theorem meLookup_build_topology (cells : List Cell) (m : MeshEdges) (q : Edge) :
    meLookup (build_topology m cells) q = meLookup m q ++ edge_incidences cells q := by
  induction cells generalizing m with
  | nil => simp [build_topology, edge_incidences]
  | cons c rest ih =>
      have h1 : build_topology m (c :: rest) =
          build_topology (c.cedges.foldl (fun m2 e => edges_append m2 e c.cid) m) rest := by
        simp [build_topology]
      rw [h1, ih, meLookup_foldl_append]
      simp [edge_incidences, List.append_assoc]

/-- `assign_cell` leaves a cell's id unchanged. -/
theorem assign_cell_cid (me : MeshEdges) (c : Cell) :
    (assign_cell me c).cid = c.cid := by
  cases c <;> rfl

/-- `assign_cell` leaves a cell's edge list unchanged. -/
theorem assign_cell_cedges (me : MeshEdges) (c : Cell) :
    (assign_cell me c).cedges = c.cedges := by
  cases c <;> rfl

/-- `assign_cell` replaces a cell's `neighbour_ids` by the edge fold. -/
theorem assign_cell_cnids (me : MeshEdges) (c : Cell) :
    (assign_cell me c).cnids = c.cedges.foldl (assign_edge me c.cid) c.cnids := by
  cases c <;> rfl

/-- Indexing into the neighbour-assigned cell list. -/
theorem assign_neighbours_get? (me : MeshEdges) (cs : List Cell) (i : Nat) :
    (assign_neighbours me cs).get? i = (cs.get? i).map (assign_cell me) := by
  simp [assign_neighbours, List.get?_map]

/-- The first component of one topology run is the extended adjacency dict. -/
theorem run_topology_fst (me : MeshEdges) (cs : List Cell) :
    (run_topology me cs).1 = build_topology me cs := rfl

/-- The second component of one topology run is the reassigned cell list. -/
theorem run_topology_snd (me : MeshEdges) (cs : List Cell) :
    (run_topology me cs).2 = assign_neighbours (build_topology me cs) cs := rfl

/-- Neighbour assignment does not change any edge's incidence list. -/
theorem edge_incidences_assign (me : MeshEdges) (cs : List Cell) (q : Edge) :
    edge_incidences (assign_neighbours me cs) q = edge_incidences cs q := by
  induction cs with
  | nil => rfl
  | cons c rest ih =>
      simp only [assign_neighbours] at ih ⊢
      simp [List.map_cons, edge_incidences, assign_cell_cid, assign_cell_cedges, ih]

/-- What one `assign_edge` call does to the neighbour dict: the touched
edge's entry becomes the last non-own id of its adjacency list (keeping the
old value if there is none); every other key is untouched. -/
theorem alookup_assign_edge (me : MeshEdges) (own : Nat) (d : List (Edge × Nat))
    (e q : Edge) :
    alookup (assign_edge me own d e) q =
      if q = e then ofirst (last_non_own own (meLookup me e)) (alookup d q)
      else alookup d q := by
  suffices h : ∀ (l : List Nat) (d : List (Edge × Nat)),
      alookup (l.foldl (fun d' n => if n ≠ own then dinsert d' e n else d') d) q =
        if q = e then ofirst (last_non_own own l) (alookup d q) else alookup d q by
    exact h (meLookup me e) d
  intro l
  induction l with
  | nil =>
      intro d
      by_cases hq : q = e <;> simp [hq, last_non_own, ofirst]
  | cons n rest ih =>
      intro d
      have hlno : last_non_own own (n :: rest) =
          ofirst (last_non_own own rest) (if n ≠ own then some n else none) := by
        have h1 : last_non_own own (n :: rest) =
            rest.foldl (fun acc m => if m ≠ own then some m else acc)
              (if n ≠ own then some n else none) := by
          simp only [last_non_own, List.foldl_cons]
        rw [h1, lno_foldl]
      simp only [List.foldl_cons, ih, hlno]
      by_cases hq : q = e
      · subst hq
        by_cases hn : n ≠ own
        · simp only [if_pos hn, if_pos rfl, alookup_dinsert]
          cases last_non_own own rest <;> rfl
        · simp only [if_neg hn, if_pos rfl]
          cases last_non_own own rest <;> rfl
      · simp only [if_neg hq]
        by_cases hn : n ≠ own
        · have hne : ¬e = q := fun h => hq h.symm
          simp [if_pos hn, alookup_dinsert, hne]
        · simp [if_neg hn]

/-- What the whole per-cell assignment fold does to the neighbour dict. -/
theorem alookup_assign_cell_fold (me : MeshEdges) (own : Nat) (es : List Edge)
    (d : List (Edge × Nat)) (q : Edge) :
    alookup (es.foldl (assign_edge me own) d) q =
      if q ∈ es then ofirst (last_non_own own (meLookup me q)) (alookup d q)
      else alookup d q := by
  induction es generalizing d with
  | nil => simp
  | cons e rest ih =>
      simp only [List.foldl_cons, ih, alookup_assign_edge, List.mem_cons]
      by_cases hq : q ∈ rest
      · by_cases hqe : q = e
        · subst hqe
          simp [hq, ofirst_idem]
        · simp [hq, hqe]
      · by_cases hqe : q = e
        · subst hqe
          simp [hq]
        · simp [hq, hqe]

/-! ## C6: running the topology pair twice (corrected) -/

/-- Counterexample for C6: on a one-cell mesh, running the
`build_topology`/`assign_neighbours` pair twice leaves edge `(0, 1)`'s
adjacency list as `[0, 0]`, not the `[0]` a single run produces — the
adjacency index is not the same. -/
theorem run_topology_twice_counterexample :
    meLookup (run_topology (run_topology [] cex6Cells).1 (run_topology [] cex6Cells).2).1 (0, 1) = [0, 0] ∧
    meLookup (run_topology [] cex6Cells).1 (0, 1) = [0] ∧
    ([0, 0] : List Nat) ≠ [0] := by
  refine ⟨rfl, rfl, by decide⟩

/-- C6 as amended: running the pair twice yields the same per-cell
`neighbour_ids` maps as running it once (key-by-key), but not the same
`mesh_edges`: the second run appends into the persisting dict, so every
edge's cell-id list is the single-run list concatenated with itself. -/
theorem run_topology_twice_amended (cells : List Cell) :
    (∀ q : Edge,
      meLookup (run_topology (run_topology [] cells).1 (run_topology [] cells).2).1 q =
        meLookup (run_topology [] cells).1 q ++ meLookup (run_topology [] cells).1 q) ∧
    (∀ (i : Nat) (q : Edge),
      nids_lookup ((run_topology (run_topology [] cells).1 (run_topology [] cells).2).2.get? i) q =
        nids_lookup ((run_topology [] cells).2.get? i) q) := by
  simp only [run_topology_fst, run_topology_snd]
  have hme1 : ∀ q, meLookup (build_topology [] cells) q = edge_incidences cells q := by
    intro q
    rw [meLookup_build_topology]
    rfl
  have hme2 : ∀ q,
      meLookup (build_topology (build_topology [] cells)
        (assign_neighbours (build_topology [] cells) cells)) q =
      edge_incidences cells q ++ edge_incidences cells q := by
    intro q
    rw [meLookup_build_topology, edge_incidences_assign, hme1]
  constructor
  · intro q
    rw [hme2, hme1]
  · intro i q
    simp only [nids_lookup, assign_neighbours_get?]
    cases hc : cells.get? i with
    | none => rfl
    | some c =>
        simp only [Option.map_some', Option.some_bind, assign_cell_cnids,
          assign_cell_cid, assign_cell_cedges, alookup_assign_cell_fold]
        by_cases hq : q ∈ c.cedges
        · simp only [if_pos hq]
          have hv : last_non_own c.cid
              (meLookup (build_topology (build_topology [] cells)
                (assign_neighbours (build_topology [] cells) cells)) q) =
              last_non_own c.cid (meLookup (build_topology [] cells) q) := by
            rw [hme2, hme1, last_non_own_append]
          rw [hv, ofirst_idem]
        · simp only [if_neg hq]

/-! ## C7: no topology-consistency check exists (corrected) -/

/-- Counterexample for C7: on three triangles sharing edge `(0, 1)`, the
adjacency list of `(0, 1)` has length 3 — neither 1 nor 2 — yet
`build_topology` and `assign_neighbours` complete normally, assigning cell
`0` the last other id, `2`, as its neighbour across that edge; no
`InconsistentTopologyError` (or any error path) exists in the code. -/
theorem topology_no_error_counterexample :
    (meLookup (build_topology [] cex7Cells) (0, 1)).length = 3 ∧
    ¬((meLookup (build_topology [] cex7Cells) (0, 1)).length = 1 ∨
      (meLookup (build_topology [] cex7Cells) (0, 1)).length = 2) ∧
    nids_lookup ((assign_neighbours (build_topology [] cex7Cells) cex7Cells).get? 0) (0, 1) =
      some 2 := by
  refine ⟨rfl, by decide, rfl⟩

/-- C7 as amended: topology construction never fails — on every cell
sequence, whether or not each edge is shared by 1 or 2 cells,
`build_topology` completes and records for every edge exactly the incidence
list of that edge over all cells (so an over-shared edge simply yields a
longer list, with no consistency check anywhere). -/
theorem build_topology_records_incidences (cells : List Cell) (q : Edge) :
    meLookup (build_topology [] cells) q = edge_incidences cells q := by
  rw [meLookup_build_topology]
  rfl

/-! ## C8: cell ids are sequential -/

/-- `mk_line` stamps the requested id. -/
theorem mk_line_id (cid : Nat) (nodes : List Nat) (coords : List (Nat × Vec))
    (l : LineData) (h : mk_line cid nodes coords = some l) : l.id = cid := by
  unfold mk_line at h
  split at h
  · injection h with h2
    subst h2
    rfl
  · exact Option.noConfusion h

/-- `mk_triangle` stamps the requested id. -/
theorem mk_triangle_id (cid : Nat) (nodes : List Nat) (coords : List (Nat × Vec))
    (t : TriangleData) (h : mk_triangle cid nodes coords = some t) : t.id = cid := by
  unfold mk_triangle at h
  split at h
  · simp only [] at h
    split at h
    · injection h with h2
      subst h2
      rfl
    · exact Option.noConfusion h
  · exact Option.noConfusion h

/-- Every cell the factory hands back carries the id it was asked to use. -/
theorem factory_call_cid (pts : Nat → Vec) (kind : CellKind) (cell_id : Nat)
    (row : List Nat) (c : Cell) (h : factory_call pts kind cell_id row = some c) :
    c.cid = cell_id := by
  cases kind with
  | vertex => exact Option.noConfusion h
  | line =>
      obtain ⟨l, hl, hc⟩ := Option.map_eq_some'.mp h
      subst hc
      exact mk_line_id _ _ _ _ hl
  | triangle =>
      obtain ⟨t, ht, hc⟩ := Option.map_eq_some'.mp h
      subst hc
      exact mk_triangle_id _ _ _ _ ht

/-- The row loop of `create_cells` preserves "id = position". -/
theorem create_rows_ids (pts : Nat → Vec) (kind : CellKind) (rows : List (List Nat)) :
    ∀ acc out : List Cell,
      (∀ i, i < acc.length → (acc.get? i).map Cell.cid = some i) →
      create_rows pts kind rows acc = some out →
      ∀ i, i < out.length → (out.get? i).map Cell.cid = some i := by
  induction rows with
  | nil =>
      intro acc out hacc h
      injection h with h2
      subst h2
      exact hacc
  | cons row rest ih =>
      intro acc out hacc h
      unfold create_rows at h
      split at h
      · rename_i c hc
        refine ih (acc ++ [c]) out ?_ h
        intro i hi
        rw [List.length_append, List.length_singleton] at hi
        by_cases hlt : i < acc.length
        · rw [List.get?_append hlt]
          exact hacc i hlt
        · have hieq : i = acc.length := by omega
          subst hieq
          rw [List.get?_append_right (Nat.le_refl _), Nat.sub_self]
          simp only [List.get?, Option.map_some']
          exact congrArg some (factory_call_cid pts kind acc.length row c hc)
      · exact Option.noConfusion h

/-- The block loop of `create_cells` preserves "id = position". -/
theorem create_cells_from_ids (pts : Nat → Vec)
    (blocks : List (CellKind × List (List Nat))) :
    ∀ acc out : List Cell,
      (∀ i, i < acc.length → (acc.get? i).map Cell.cid = some i) →
      create_cells_from pts blocks acc = some out →
      ∀ i, i < out.length → (out.get? i).map Cell.cid = some i := by
  induction blocks with
  | nil =>
      intro acc out hacc h
      injection h with h2
      subst h2
      exact hacc
  | cons b rest ih =>
      intro acc out hacc h
      obtain ⟨kind, rows⟩ := b
      unfold create_cells_from at h
      by_cases hk : kind = CellKind.vertex
      · rw [if_pos hk] at h
        exact ih acc out hacc h
      · rw [if_neg hk] at h
        split at h
        · rename_i acc2 hacc2
          exact ih acc2 out (create_rows_ids pts kind rows acc acc2 hacc hacc2) h
        · exact Option.noConfusion h

/-- C8: `create_cells` assigns ids sequentially — the cell stored at any
position `i` has id `i` — and the later topology passes never disturb this,
so indexing the cell list by a recorded neighbour id always retrieves the
cell carrying that id. -/
theorem create_cells_sequential_ids (pts : Nat → Vec)
    (blocks : List (CellKind × List (List Nat))) (cells : List Cell)
    (h : create_cells pts blocks = some cells) :
    (∀ i, i < cells.length → (cells.get? i).map Cell.cid = some i) ∧
    (∀ (me : MeshEdges) (i : Nat),
      ((assign_neighbours me cells).get? i).map Cell.cid = (cells.get? i).map Cell.cid) ∧
    (∀ (me : MeshEdges) (nid : Nat), nid < cells.length →
      ((assign_neighbours me cells).get? nid).map Cell.cid = some nid) := by
  have hids := create_cells_from_ids pts blocks [] cells (by intro i hi; cases hi) h
  have hpres : ∀ (me : MeshEdges) (i : Nat),
      ((assign_neighbours me cells).get? i).map Cell.cid = (cells.get? i).map Cell.cid := by
    intro me i
    rw [assign_neighbours_get?]
    cases cells.get? i with
    | none => rfl
    | some c => simp [assign_cell_cid]
  exact ⟨hids, hpres, fun me nid hn => (hpres me nid).trans (hids nid hn)⟩

/-- Witness for C8 on a mesh of two line cells (with a skipped vertex
block). -/
theorem create_cells_sequential_ids_witness :
    (∀ i, i < wLineCells.length → (wLineCells.get? i).map Cell.cid = some i) ∧
    (∀ (me : MeshEdges) (i : Nat),
      ((assign_neighbours me wLineCells).get? i).map Cell.cid =
        (wLineCells.get? i).map Cell.cid) ∧
    (∀ (me : MeshEdges) (nid : Nat), nid < wLineCells.length →
      ((assign_neighbours me wLineCells).get? nid).map Cell.cid = some nid) :=
  create_cells_sequential_ids pts4 wLineBlocks wLineCells rfl

/-! ## Frame lemmas for the solver -/

/-- `same_frame` is reflexive. -/
theorem same_frame_refl (c : Cell) : same_frame c c := by
  cases c <;> simp [same_frame]

/-- `same_frame` is transitive. -/
theorem same_frame_trans : ∀ {a b c : Cell},
    same_frame a b → same_frame b c → same_frame a c := by
  intro a b c h1 h2
  cases a with
  | triangle ta =>
      cases b with
      | triangle tb =>
          cases c with
          | triangle tc =>
              obtain ⟨x1, x2, x3, x4, x5, x6, x7, x8, x9⟩ := h1
              obtain ⟨y1, y2, y3, y4, y5, y6, y7, y8, y9⟩ := h2
              exact ⟨x1.trans y1, x2.trans y2, x3.trans y3, x4.trans y4,
                x5.trans y5, x6.trans y6, x7.trans y7, x8.trans y8, x9.trans y9⟩
          | line lc => exact absurd h2 (by simp [same_frame])
      | line lb => exact absurd h1 (by simp [same_frame])
  | line la =>
      cases b with
      | triangle tb => exact absurd h1 (by simp [same_frame])
      | line lb =>
          cases c with
          | triangle tc => exact absurd h2 (by simp [same_frame])
          | line lc =>
              have e1 : la = lb := h1
              have e2 : lb = lc := h2
              exact e1.trans e2

/-- Cells with the same frame have the same id. -/
theorem same_frame_cid : ∀ {a b : Cell}, same_frame a b → a.cid = b.cid := by
  intro a b h
  cases a with
  | triangle ta =>
      cases b with
      | triangle tb => exact h.1
      | line lb => exact absurd h (by simp [same_frame])
  | line la =>
      cases b with
      | triangle tb => exact absurd h (by simp [same_frame])
      | line lb =>
          have e : la = lb := h
          rw [Cell.cid, Cell.cid, e]

/-- Writing a staged concentration does not change the list's length. -/
theorem set_concentration_length (cells : List Cell) (j : Nat) (v : ℚ) :
    (set_concentration cells j v).length = cells.length := by
  unfold set_concentration
  split <;> simp

/-- Writing a staged concentration changes at most one concentration: every
cell keeps its frame. -/
theorem set_concentration_frame (cells : List Cell) (j : Nat) (v : ℚ) (i : Nat)
    (c : Cell) (hc : cells.get? i = some c) :
    ∃ c', (set_concentration cells j v).get? i = some c' ∧ same_frame c c' := by
  unfold set_concentration
  split
  · rename_i t hj
    by_cases hij : j = i
    · subst hij
      have hct : c = .triangle t := by
        rw [hc] at hj
        exact (Option.some.inj hj)
      obtain ⟨hlt, _⟩ := List.get?_eq_some.mp hj
      refine ⟨.triangle { t with concentration := v }, ?_, ?_⟩
      · exact List.get?_set_eq_of_lt _ hlt
      · subst hct
        simp [same_frame]
    · refine ⟨c, ?_, same_frame_refl c⟩
      rw [List.get?_set_ne _ _ hij]
      exact hc
  · exact ⟨c, hc, same_frame_refl c⟩

/-- Committing a staging store does not change the list's length. -/
theorem commit_stage_length (tmp : List (Nat × ℚ)) :
    ∀ cells : List Cell, (commit_stage cells tmp).length = cells.length := by
  induction tmp with
  | nil => intro cells; rfl
  | cons p rest ih =>
      intro cells
      have h1 : commit_stage cells (p :: rest) =
          commit_stage (set_concentration cells p.1 p.2) rest := by
        simp [commit_stage]
      rw [h1, ih, set_concentration_length]

/-- Committing a staging store keeps every cell's frame. -/
theorem commit_stage_frame (tmp : List (Nat × ℚ)) :
    ∀ (cells : List Cell) (i : Nat) (c : Cell), cells.get? i = some c →
      ∃ c', (commit_stage cells tmp).get? i = some c' ∧ same_frame c c' := by
  induction tmp with
  | nil => intro cells i c hc; exact ⟨c, hc, same_frame_refl c⟩
  | cons p rest ih =>
      intro cells i c hc
      obtain ⟨c1, hc1, hf1⟩ := set_concentration_frame cells p.1 p.2 i c hc
      obtain ⟨c2, hc2, hf2⟩ := ih (set_concentration cells p.1 p.2) i c1 hc1
      refine ⟨c2, ?_, same_frame_trans hf1 hf2⟩
      have h1 : commit_stage cells (p :: rest) =
          commit_stage (set_concentration cells p.1 p.2) rest := by
        simp [commit_stage]
      rw [h1]
      exact hc2

/-- Unfolding one solver step. -/
theorem solver_succ (b : Borders) (dt : ℚ) (st : SimState) (n : Nat) :
    solver b (n + 1) dt st = solver_step b dt (solver b n dt st) := by
  simp [solver, Function.iterate_succ_apply']

/-! ## C9: the solver's frame -/

/-- C9: running the solver any number of steps keeps every cell's identity,
nodes, edges, coords, neighbour ids, centroid, area, normals and mean flow
(`same_frame`), preserves the cell count, and only appends to the
fishing-grounds series — concentrations are the only cell state it may
touch. -/
theorem solver_frame (b : Borders) (n : Nat) (dt : ℚ) (cells : List Cell)
    (series : List ℚ) :
    (solver b n dt ⟨cells, series⟩).cells.length = cells.length ∧
    (∀ (i : Nat) (c : Cell), cells.get? i = some c →
      ∃ c', (solver b n dt ⟨cells, series⟩).cells.get? i = some c' ∧ same_frame c c') ∧
    (∃ tail, (solver b n dt ⟨cells, series⟩).oil_in_fishing_grounds = series ++ tail) := by
  induction n with
  | zero =>
      exact ⟨rfl, fun i c hc => ⟨c, hc, same_frame_refl c⟩, [], (List.append_nil _).symm⟩
  | succ n ih =>
      obtain ⟨ihlen, ihframe, tail, ihser⟩ := ih
      refine ⟨?_, ?_, ?_⟩
      · rw [solver_succ]
        show (commit_stage _ _).length = _
        rw [commit_stage_length]
        exact ihlen
      · intro i c hc
        obtain ⟨c1, hc1, hf1⟩ := ihframe i c hc
        obtain ⟨c2, hc2, hf2⟩ := commit_stage_frame _ _ i c1 hc1
        refine ⟨c2, ?_, same_frame_trans hf1 hf2⟩
        rw [solver_succ]
        exact hc2
      · refine ⟨tail ++ [total_oil b (solver_step b dt (solver b n dt ⟨cells, series⟩)).cells], ?_⟩
        rw [solver_succ]
        show (solver b n dt ⟨cells, series⟩).oil_in_fishing_grounds ++ _ = _
        rw [ihser, List.append_assoc]
        rfl

/-- Witness for C9: one step on the two-triangle mesh keeps cell `0`'s
frame. -/
theorem solver_frame_witness :
    ∃ c', (solver bEx 1 (1 / 100) ⟨wCells, []⟩).cells.get? 0 = some c' ∧
      same_frame (.triangle { wTri0 with neighbour_ids := [((1, 2), 1)] }) c' :=
  (solver_frame bEx 1 (1 / 100) wCells []).2.1 0
    (.triangle { wTri0 with neighbour_ids := [((1, 2), 1)] }) rfl

/-! ## The staging/commit characterization (for C2) -/

/-- A staged entry's key is the id of the cell it was staged for. -/
theorem stage_cell_key (cells : List Cell) (dt : ℚ) (c : Cell) (p : Nat × ℚ)
    (h : stage_cell cells dt c = some p) : p.1 = c.cid := by
  cases c with
  | line l => exact Option.noConfusion h
  | triangle t =>
      have h2 := Option.some.inj h
      rw [← h2]
      rfl

/-- "Cell id equals position" read off the map-to-range form. -/
theorem cid_of_map_range (cells : List Cell)
    (hids : cells.map Cell.cid = List.range cells.length) (j : Nat) (c : Cell)
    (hc : cells.get? j = some c) : c.cid = j := by
  obtain ⟨hlt, _⟩ := List.get?_eq_some.mp hc
  have h1 : (cells.map Cell.cid).get? j = some c.cid := by
    rw [List.get?_map, hc]
    rfl
  rw [hids, List.get?_range hlt] at h1
  exact (Option.some.inj h1).symm

/-- Keys staged from the prefix before position `i` differ from `i`. -/
theorem stage_keys_take (cellsAll cells : List Cell) (dt : ℚ) (i : Nat)
    (hids : ∀ (j : Nat) (c : Cell), cells.get? j = some c → c.cid = j) :
    ∀ p ∈ (cells.take i).filterMap (stage_cell cellsAll dt), p.1 ≠ i := by
  intro p hp
  obtain ⟨c, hcmem, hcp⟩ := List.mem_filterMap.mp hp
  obtain ⟨n, hn⟩ := List.mem_iff_get?.mp hcmem
  obtain ⟨hnlt, _⟩ := List.get?_eq_some.mp hn
  rw [List.length_take] at hnlt
  have hni : n < i := lt_of_lt_of_le hnlt (min_le_left _ _)
  rw [List.get?_take hni] at hn
  rw [stage_cell_key cellsAll dt c p hcp, hids n c hn]
  omega

/-- Keys staged from the suffix after position `i` differ from `i`. -/
theorem stage_keys_drop (cellsAll cells : List Cell) (dt : ℚ) (i : Nat)
    (hids : ∀ (j : Nat) (c : Cell), cells.get? j = some c → c.cid = j) :
    ∀ p ∈ (cells.drop (i + 1)).filterMap (stage_cell cellsAll dt), p.1 ≠ i := by
  intro p hp
  obtain ⟨c, hcmem, hcp⟩ := List.mem_filterMap.mp hp
  obtain ⟨n, hn⟩ := List.mem_iff_get?.mp hcmem
  rw [List.get?_drop] at hn
  rw [stage_cell_key cellsAll dt c p hcp, hids (i + 1 + n) c hn]
  omega

/-- Splitting a commit at an append. -/
theorem commit_stage_append (cells : List Cell) (a c : List (Nat × ℚ)) :
    commit_stage cells (a ++ c) = commit_stage (commit_stage cells a) c := by
  simp [commit_stage, List.foldl_append]

/-- A commit whose staged keys all avoid `i` leaves position `i` alone. -/
theorem commit_stage_get?_of_not_mem (tmp : List (Nat × ℚ)) :
    ∀ (cells : List Cell) (i : Nat), (∀ p ∈ tmp, p.1 ≠ i) →
      (commit_stage cells tmp).get? i = cells.get? i := by
  induction tmp with
  | nil => intro cells i _; rfl
  | cons p rest ih =>
      intro cells i hni
      have h1 : commit_stage cells (p :: rest) =
          commit_stage (set_concentration cells p.1 p.2) rest := by
        simp [commit_stage]
      rw [h1, ih _ i (fun q hq => hni q (List.mem_cons_of_mem _ hq))]
      unfold set_concentration
      split
      · exact List.get?_set_ne _ _ (hni p (List.mem_cons_self _ _))
      · rfl

/-- The heart of C2: one full stage-then-commit pass writes each triangle
exactly its upwind update, computed from the pre-step cell list. -/
theorem commit_stage_stage_get (cells : List Cell) (dt : ℚ)
    (hids : ∀ (j : Nat) (c : Cell), cells.get? j = some c → c.cid = j)
    (i : Nat) (t : TriangleData) (ht : cells.get? i = some (.triangle t)) :
    (commit_stage cells (stage_step cells dt)).get? i =
      some (.triangle { t with concentration :=
        t.concentration + -(edge_flux_formula cells t * dt) / t.area }) := by
  obtain ⟨hlt, _⟩ := List.get?_eq_some.mp ht
  have hti : t.id = i := hids i (.triangle t) ht
  have ht2 := ht
  rw [List.get?_eq_getElem?, List.getElem?_eq_getElem hlt] at ht2
  have hget2 := Option.some.inj ht2
  have hsplit : cells = cells.take i ++ Cell.triangle t :: cells.drop (i + 1) := by
    conv_lhs => rw [← List.take_append_drop i cells]
    congr 1
    rw [List.drop_eq_getElem_cons hlt, hget2]
  have hstage : stage_cell cells dt (Cell.triangle t) =
      some (i, t.concentration + -(edge_flux_formula cells t * dt) / t.area) := by
    rw [show stage_cell cells dt (Cell.triangle t) =
      some (t.id, t.concentration +
        -((t.edges.filterMap (cell_flux cells t)).sum * dt) / t.area) from rfl, hti]
    rfl
  have htmp : stage_step cells dt =
      (cells.take i).filterMap (stage_cell cells dt) ++
        ((i, t.concentration + -(edge_flux_formula cells t * dt) / t.area) ::
          (cells.drop (i + 1)).filterMap (stage_cell cells dt)) := by
    have h0 : stage_step cells dt =
        List.filterMap (stage_cell cells dt)
          (cells.take i ++ Cell.triangle t :: cells.drop (i + 1)) :=
      congrArg (List.filterMap (stage_cell cells dt)) hsplit
    rw [h0, List.filterMap_append, List.filterMap_cons_some hstage]
  rw [htmp, commit_stage_append]
  have hA : (commit_stage cells ((cells.take i).filterMap (stage_cell cells dt))).get? i =
      some (Cell.triangle t) := by
    rw [commit_stage_get?_of_not_mem _ _ _ (stage_keys_take cells cells dt i hids)]
    exact ht
  have h1 : commit_stage (commit_stage cells ((cells.take i).filterMap (stage_cell cells dt)))
      (((i, t.concentration + -(edge_flux_formula cells t * dt) / t.area)) ::
        (cells.drop (i + 1)).filterMap (stage_cell cells dt)) =
      commit_stage (set_concentration
        (commit_stage cells ((cells.take i).filterMap (stage_cell cells dt)))
        i (t.concentration + -(edge_flux_formula cells t * dt) / t.area))
        ((cells.drop (i + 1)).filterMap (stage_cell cells dt)) := by
    simp [commit_stage]
  rw [h1, commit_stage_get?_of_not_mem _ _ _ (stage_keys_drop cells cells dt i hids)]
  unfold set_concentration
  rw [hA]
  have hlt2 : i < (commit_stage cells
      ((cells.take i).filterMap (stage_cell cells dt))).length := by
    rw [commit_stage_length]
    exact hlt
  exact List.get?_set_eq_of_lt _ hlt2

/-! ## C2: the per-step upwind update -/

/-- Solver steps never change a cell's id. -/
theorem commit_preserves_cid (tmp : List (Nat × ℚ)) (cells : List Cell) (j : Nat) :
    ((commit_stage cells tmp).get? j).map Cell.cid = (cells.get? j).map Cell.cid := by
  cases hc : cells.get? j with
  | some c =>
      obtain ⟨c', hc', hf⟩ := commit_stage_frame tmp cells j c hc
      rw [hc', Option.map_some', Option.map_some', same_frame_cid hf]
  | none =>
      have hle : cells.length ≤ j := List.get?_eq_none.mp hc
      have : (commit_stage cells tmp).get? j = none := by
        apply List.get?_eq_none.mpr
        rw [commit_stage_length]
        exact hle
      rw [this]

/-- The id-equals-position invariant survives any number of solver steps. -/
theorem solver_preserves_cid (b : Borders) (dt : ℚ) (st : SimState) (n : Nat)
    (j : Nat) :
    ((solver b n dt st).cells.get? j).map Cell.cid = (st.cells.get? j).map Cell.cid := by
  induction n with
  | zero => rfl
  | succ n ih =>
      rw [solver_succ]
      show ((commit_stage (solver b n dt st).cells _).get? j).map Cell.cid = _
      rw [commit_preserves_cid]
      exact ih

/-- C2: at every step of the solver, each triangle's post-step concentration
is its pre-step concentration minus `Δt` times the sum of the upwind fluxes
of its triangle-neighbour edges, divided by its area — all fluxes read from
the pre-step concentrations, and nothing else about the cell changes; the
new values are staged by id and committed only after the whole pass. -/
theorem solver_step_concentration_update (b : Borders) (dt : ℚ)
    (cells : List Cell) (series : List ℚ) (k i : Nat) (t : TriangleData)
    (hids : cells.map Cell.cid = List.range cells.length)
    (ht : (solver b k dt ⟨cells, series⟩).cells.get? i = some (.triangle t)) :
    (solver b (k + 1) dt ⟨cells, series⟩).cells.get? i =
      some (.triangle { t with concentration :=
        t.concentration -
          dt * edge_flux_formula (solver b k dt ⟨cells, series⟩).cells t / t.area }) := by
  have hids' : ∀ (j : Nat) (c : Cell),
      (solver b k dt ⟨cells, series⟩).cells.get? j = some c → c.cid = j := by
    intro j c hc
    have h1 := solver_preserves_cid b dt ⟨cells, series⟩ k j
    rw [hc, Option.map_some'] at h1
    cases hc0 : cells.get? j with
    | none =>
        rw [hc0] at h1
        exact Option.noConfusion h1
    | some c0 =>
        rw [hc0, Option.map_some'] at h1
        rw [Option.some.inj h1]
        exact cid_of_map_range cells hids j c0 hc0
  rw [solver_succ]
  show (commit_stage (solver b k dt ⟨cells, series⟩).cells
    (stage_step (solver b k dt ⟨cells, series⟩).cells dt)).get? i = _
  rw [commit_stage_stage_get (solver b k dt ⟨cells, series⟩).cells dt hids' i t ht]
  have harith : t.concentration +
      -(edge_flux_formula (solver b k dt ⟨cells, series⟩).cells t * dt) / t.area =
      t.concentration -
        dt * edge_flux_formula (solver b k dt ⟨cells, series⟩).cells t / t.area := by
    ring
  rw [harith]

/-- Witness for C2: the first step on the two-triangle mesh, at cell `0`. -/
theorem solver_step_concentration_update_witness :
    (solver bEx (0 + 1) (1 / 100) ⟨wCells, []⟩).cells.get? 0 =
      some (.triangle { { wTri0 with neighbour_ids := [((1, 2), 1)] } with
        concentration :=
          ({ wTri0 with neighbour_ids := [((1, 2), 1)] }).concentration -
            (1 / 100) * edge_flux_formula (solver bEx 0 (1 / 100) ⟨wCells, []⟩).cells
                { wTri0 with neighbour_ids := [((1, 2), 1)] } /
              ({ wTri0 with neighbour_ids := [((1, 2), 1)] }).area }) :=
  solver_step_concentration_update bEx (1 / 100) wCells [] 0 0
    { wTri0 with neighbour_ids := [((1, 2), 1)] } (by decide) rfl

/-! ## C3: the fishing-grounds series -/

/-- The series after `n` solver steps from a fresh simulation: one entry per
step, entry `i` being the committed-state aggregate of step `i + 1`. -/
theorem solver_series_spec (b : Borders) (dt : ℚ) (cells : List Cell) (n : Nat) :
    (solver b n dt ⟨cells, []⟩).oil_in_fishing_grounds.length = n ∧
    ∀ i, i < n → (solver b n dt ⟨cells, []⟩).oil_in_fishing_grounds.get? i =
      some (total_oil b (solver b (i + 1) dt ⟨cells, []⟩).cells) := by
  induction n with
  | zero => exact ⟨rfl, fun i hi => absurd hi (Nat.not_lt_zero i)⟩
  | succ n ih =>
      obtain ⟨ihlen, ihget⟩ := ih
      have hser : (solver b (n + 1) dt ⟨cells, []⟩).oil_in_fishing_grounds =
          (solver b n dt ⟨cells, []⟩).oil_in_fishing_grounds ++
            [total_oil b (solver b (n + 1) dt ⟨cells, []⟩).cells] := by
        rw [solver_succ]
        rfl
      constructor
      · rw [hser, List.length_append, ihlen]
        rfl
      · intro i hi
        rw [hser]
        by_cases hin : i < n
        · rw [List.get?_append (by rw [ihlen]; exact hin)]
          exact ihget i hin
        · have hieq : i = n := by omega
          subst hieq
          rw [List.get?_append_right (by rw [ihlen]), ihlen, Nat.sub_self]
          rfl

/-- C3: after each step of the solver exactly one scalar is appended to the
fishing-grounds series — the sum of `concentration * area` over every
triangle whose centroid lies in the borders rectangle, bounds inclusive on
both axes (`total_oil`), evaluated on that step's committed cells — so after
`n` steps the series has exactly `n` entries and entry `i` is the aggregate
after step `i + 1`. -/
theorem solver_fishing_grounds_series (b : Borders) (dt : ℚ) (cells : List Cell)
    (n i : Nat) (h : i < n) :
    (solver b n dt ⟨cells, []⟩).oil_in_fishing_grounds.length = n ∧
    (solver b n dt ⟨cells, []⟩).oil_in_fishing_grounds.get? i =
      some (total_oil b (solver b (i + 1) dt ⟨cells, []⟩).cells) :=
  ⟨(solver_series_spec b dt cells n).1, (solver_series_spec b dt cells n).2 i h⟩

/-- Witness for C3 on the two-triangle mesh, one step. -/
theorem solver_fishing_grounds_series_witness :
    (solver bEx 1 (1 / 100) ⟨wCells, []⟩).oil_in_fishing_grounds.length = 1 ∧
    (solver bEx 1 (1 / 100) ⟨wCells, []⟩).oil_in_fishing_grounds.get? 0 =
      some (total_oil bEx (solver bEx (0 + 1) (1 / 100) ⟨wCells, []⟩).cells) :=
  solver_fishing_grounds_series bEx (1 / 100) wCells 1 0 (by decide)

end OilSpill
